import Mathlib

/-!
Verification of the mup-multicore plugin (src/index.js): a shallow embedding
of its configuration resolution, core-count detection, worker-container
reconciliation, validation and lifecycle hooks, with theorems settling the
spec's claims about them.

JavaScript values relevant to the plugin's configuration are modelled by
`JSVal` (numbers as rationals, which is exact for every numeric literal the
plugin compares against); `undefined` is `JSVal.undef`.  JS truthiness and
the `||` default-chaining idiom used throughout src/index.js are modelled by
`truthy` and `jsOr`.
-/

namespace MupMulticore

/-- A JavaScript value as it appears in the plugin's configuration fields. -/
inductive JSVal : Type
  | undef : JSVal
  | bool : Bool → JSVal
  | num : ℚ → JSVal
  | str : String → JSVal
  deriving DecidableEq, Repr

/-- JS truthiness: `undefined` and `false` are falsy, a number is falsy iff
it is `0`, a string is falsy iff it is empty. -/
def truthy : JSVal → Bool
  | .undef => false
  | .bool b => b
  | .num q => q != 0
  | .str s => s != ""

/-- The JS `a || b` operator: `a` when truthy, else `b`. -/
def jsOr (a b : JSVal) : JSVal := if truthy a then a else b

/-- One `multiCore` settings object, global or per-server; an absent field is
`JSVal.undef` (matching `serverConfig?.field` evaluating to `undefined`). -/
structure MultiCoreSettings where
  instances : JSVal := .undef
  startingPort : JSVal := .undef
  useNginx : JSVal := .undef
  deriving DecidableEq, Repr

/-- `cfg?.field` for an optional settings object: `undefined` when the object
itself is absent. -/
def fieldInstances : Option MultiCoreSettings → JSVal
  | none => .undef
  | some m => m.instances

def fieldStartingPort : Option MultiCoreSettings → JSVal
  | none => .undef
  | some m => m.startingPort

def fieldUseNginx : Option MultiCoreSettings → JSVal
  | none => .undef
  | some m => m.useNginx

/-- The configuration state the resolver functions read: `config.multiCore`
(global scope) and the module-level `serverConfigs` table that
`prepareConfig` fills with each server's `multiCore` object. -/
structure Config where
  multiCore : Option MultiCoreSettings
  serverConfigs : String → Option MultiCoreSettings

/-- src/index.js `getInstanceCount`:
`serverConfig?.instances || globalConfig?.instances || 'auto'`. -/
def getInstanceCount (config : Config) (serverName : String) : JSVal :=
  jsOr (jsOr (fieldInstances (config.serverConfigs serverName))
             (fieldInstances config.multiCore))
       (.str "auto")

/-- src/index.js `getStartingPort`:
`serverConfig?.startingPort || globalConfig?.startingPort || 3001`. -/
def getStartingPort (config : Config) (serverName : String) : JSVal :=
  jsOr (jsOr (fieldStartingPort (config.serverConfigs serverName))
             (fieldStartingPort config.multiCore))
       (.num 3001)

/-- src/index.js `shouldUseNginx`:
`serverConfig?.useNginx || globalConfig?.useNginx || false`. -/
def shouldUseNginx (config : Config) (serverName : String) : JSVal :=
  jsOr (jsOr (fieldUseNginx (config.serverConfigs serverName))
             (fieldUseNginx config.multiCore))
       (.bool false)

/-! ### Core-count detection (src/index.js `detectCores`) -/

/-- Outcome of `api.runSSHCommand(server, 'nproc')`: either the command
resolved with an output string, or it threw (unreachable host, non-zero
exit). -/
inductive ProbeResult : Type
  | ok : String → ProbeResult
  | err : ProbeResult
  deriving DecidableEq, Repr

/-- JS `String.prototype.trim()`: drop whitespace from both ends.  (Defined
over the character list so that it evaluates by kernel reduction.) -/
def jsTrim (s : String) : String :=
  ⟨((s.toList.dropWhile Char.isWhitespace).reverse.dropWhile
      Char.isWhitespace).reverse⟩

/-- Numeric value of a decimal digit character. -/
def digitVal (c : Char) : ℕ := c.toNat - '0'.toNat

/-- The natural number denoted by a list of decimal digits. -/
def digitsToNat (l : List Char) : ℕ := l.foldl (fun a c => 10 * a + digitVal c) 0

/-- Parse a signless decimal-digit run at the head of `l`, scaled by `sign`;
`none` when there is no leading digit (JS `parseInt` returning `NaN`). -/
def parseDigits (l : List Char) (sign : ℤ) : Option ℤ :=
  let ds := l.takeWhile Char.isDigit
  if ds.isEmpty then none else some (sign * (digitsToNat ds : ℤ))

/-- JS `parseInt(s)` on decimal input: skip surrounding whitespace, accept an
optional sign, read the longest leading digit run; `NaN` (here `none`) when
no digits are found.  (The hexadecimal `0x` special case of `parseInt` is
irrelevant to `nproc` output and is not modelled.) -/
def parseIntJS (s : String) : Option ℤ :=
  match (jsTrim s).toList with
  | '-' :: rest => parseDigits rest (-1)
  | '+' :: rest => parseDigits rest 1
  | l => parseDigits l 1

/-- src/index.js `detectCores`, as a function of the probe's outcome: a
thrown probe is caught and replaced by `2`; a resolved probe's output is fed
to `parseInt(result.output.trim())` and returned as-is (`none` = `NaN`). -/
def detectCores (probe : ProbeResult) : Option ℤ :=
  match probe with
  | .ok out => parseIntJS (jsTrim out)
  | .err => some 2

/-! ### The reconciler's remote-command model

`startWorkerContainers`, `stopWorkerContainers` and `restartWorkerContainers`
interact with a server only through `api.runSSHCommand`.  Each distinct shell
command the source interpolates is one `Cmd` constructor; the per-server
behaviour of the remote host (whether queries throw, what `docker inspect`
prints, whether a `docker run` succeeds, whether a started container reports
`Up`) is an oracle `Host`.  Each function is embedded as the list of commands
it issues against one server (its trace), and `applyCmd` gives the docker
semantics of a command on the server's container inventory. -/

/-- One container of a server's docker inventory: its name, the host port it
publishes, and whether it is running (`docker ps` vs `docker ps -a`). -/
structure Container where
  name : String
  hostPort : ℤ
  running : Bool
  deriving DecidableEq, Repr

/-- `${appName}-worker-${i}`: the deterministic replica container name. -/
def workerName (app : String) (i : ℤ) : String :=
  app ++ "-worker-" ++ toString i

/-- `${serverName}-${appName}-${i}`: the replica's container hostname. -/
def workerHostname (serverName app : String) (i : ℤ) : String :=
  serverName ++ "-" ++ app ++ "-" ++ toString i

/-- The remote commands src/index.js interpolates, one constructor per
distinct `api.runSSHCommand` call site. -/
inductive Cmd : Type
  /-- `docker ps -aq --filter name=${app}-worker` -/
  | listWorkersAll : String → Cmd
  /-- `docker ps -q --filter name=${app}-worker` -/
  | listWorkersRunning : String → Cmd
  /-- `docker stop $(docker ps -aq --filter name=${app}-worker)` -/
  | stopMatching : String → Cmd
  /-- `docker stop $(docker ps -q --filter name=${app}-worker)` -/
  | stopMatchingRunning : String → Cmd
  /-- `docker rm $(docker ps -aq --filter name=${app}-worker)` -/
  | rmMatching : String → Cmd
  /-- `docker restart $(docker ps -aq --filter name=${app}-worker)` -/
  | restartMatching : String → Cmd
  /-- `docker stop ${name} || true` -/
  | stopName : String → Cmd
  /-- `docker rm ${name} || true` -/
  | rmName : String → Cmd
  /-- `docker inspect ${name} --format='{{.Image}}'` -/
  | inspectImage : String → Cmd
  /-- `docker run -d --name ${name} --hostname ${hostname} --restart always
  --network=bridge -p 127.0.0.1:${hostPort}:${appPort} -e PORT=${appPort}
  -e CORE_ID=${coreId} --env-file /opt/${app}/config/env.list ${image}` -/
  | runContainer (name hostname : String) (hostPort appPort coreId : ℤ)
      (image : String) : Cmd
  /-- `docker ps --filter name=${name} --format "{{.Names}} {{.Status}}"` -/
  | psStatusName : String → Cmd
  /-- `docker logs ${name} 2>&1 || echo "Container not found"` -/
  | logsName : String → Cmd
  /-- `docker images ${image} --format "{{.Repository}}:{{.Tag}}"` -/
  | imagesCheck : String → Cmd
  /-- `docker ps | grep ${app}` -/
  | psGrep : String → Cmd
  deriving DecidableEq, Repr

/-- `pat` occurs somewhere inside `s` (contiguously). -/
def containsSub (s pat : List Char) : Bool :=
  s.tails.any (fun t => List.isPrefixOf pat t)

/-- Docker's `--filter name=${app}-worker` matches a container whose name
contains `app ++ "-worker"` as a substring (docker name filters are
unanchored). -/
def matchesWorkerFilter (app : String) (name : String) : Bool :=
  containsSub name.toList (app ++ "-worker").toList

/-- The containers of an inventory that the worker name filter matches. -/
def workersOf (app : String) (cs : List Container) : List Container :=
  cs.filter (fun c => matchesWorkerFilter app c.name)

/-- The running containers that the worker name filter matches. -/
def runningWorkersOf (app : String) (cs : List Container) : List Container :=
  cs.filter (fun c => matchesWorkerFilter app c.name && c.running)

/-- The per-server behaviour of the remote host during one pass:
`containers` is the live docker inventory when the pass begins,
`inventoryQueryOk` whether the `docker ps` listing commands resolve,
`imageResult` the outcome of `docker inspect ${app} --format .Image`
(`none` = the command threw), `runOk i` whether slot `i`'s `docker run`
resolves, and `startedUp i` whether its status check reports `Up`. -/
structure Host where
  containers : List Container
  inventoryQueryOk : Bool
  imageResult : Option String
  runOk : ℤ → Bool
  startedUp : ℤ → Bool

/-- The bounded best-effort fallback of src/index.js (lines 127-130 and
152-155): `for (let i = 1; i <= 10; i++)` issue `docker stop` and `docker rm`
for `${appName}-worker-${i}`. -/
def fallbackCleanup (app : String) : List Cmd :=
  (List.range 10).flatMap (fun j =>
    [Cmd.stopName (workerName app ((j : ℤ) + 1)),
     Cmd.rmName (workerName app ((j : ℤ) + 1))])

/-- The inventory-cleanup step shared by both branches of
`startWorkerContainers` (lines 119-131 and 144-156): query the live worker
inventory; when the query resolves and its output is non-empty, stop and
remove everything the filter matches; when the query throws, fall back to
the bounded per-slot cleanup. -/
def cleanupCmds (app : String) (h : Host) : List Cmd :=
  if h.inventoryQueryOk then
    Cmd.listWorkersAll app ::
      (if (workersOf app h.containers).isEmpty then []
       else [Cmd.stopMatching app, Cmd.rmMatching app])
  else
    Cmd.listWorkersAll app :: fallbackCleanup app

/-- The commands issued for one desired slot `i` (lines 158-188): the
`docker run`, then — when the run resolved — the post-settle status check,
and on a non-`Up` status the diagnostic log fetch and image presence check;
a thrown `docker run` is caught and ends the slot's commands. -/
def slotCmds (app serverName : String) (appPort startingPort : ℤ)
    (img : String) (h : Host) (i : ℤ) : List Cmd :=
  Cmd.runContainer (workerName app i) (workerHostname serverName app i)
      (startingPort + i - 1) appPort i img ::
    (if h.runOk i then
      Cmd.psStatusName (workerName app i) ::
        (if h.startedUp i then []
         else [Cmd.logsName (workerName app i), Cmd.imagesCheck img])
     else [])

/-- The desired slot numbers of `for (let i = 1; i < cores; i++)`:
`[1, ..., cores-1]`, empty when `cores ≤ 1`. -/
def slotList (cores : ℤ) : List ℤ :=
  (List.range (cores - 1).toNat).map (fun j : ℕ => (j : ℤ) + 1)

/-- src/index.js `startWorkerContainers`, for one server, as the list of
remote commands it issues.  `cores ≤ 1`: cleanup only.  Otherwise: inspect
the primary's image first; a thrown or empty inspect aborts the server (the
outer catch / the explicit `return`); else cleanup, then the per-slot run
commands, then the final `docker ps | grep` status snapshot. -/
def startWorkerTrace (app serverName : String) (appPort startingPort cores : ℤ)
    (h : Host) : List Cmd :=
  if cores ≤ 1 then
    cleanupCmds app h
  else
    match h.imageResult with
    | none => [Cmd.inspectImage app]
    | some out =>
        if jsTrim out = "" then [Cmd.inspectImage app]
        else
          Cmd.inspectImage app ::
            (cleanupCmds app h ++
              (slotList cores).flatMap
                (slotCmds app serverName appPort startingPort (jsTrim out) h) ++
              [Cmd.psGrep app])

/-- src/index.js `stopWorkerContainers`, for one server: query the running
workers; when non-empty, stop the running ones and remove all matching ones;
a thrown query is caught. -/
def stopWorkerTrace (app : String) (h : Host) : List Cmd :=
  if h.inventoryQueryOk then
    Cmd.listWorkersRunning app ::
      (if (runningWorkersOf app h.containers).isEmpty then []
       else [Cmd.stopMatchingRunning app, Cmd.rmMatching app])
  else
    [Cmd.listWorkersRunning app]

/-- src/index.js `restartWorkerContainers`, restricted to the commands run
against one server: query all workers; restart them when any exist, else the
full `startWorkerContainers(api)` is invoked (this server's share of it is
its start trace); a thrown query is caught. -/
def restartWorkerTraceOne (app serverName : String)
    (appPort startingPort cores : ℤ) (h : Host) : List Cmd :=
  if h.inventoryQueryOk then
    Cmd.listWorkersAll app ::
      (if (workersOf app h.containers).isEmpty then
        startWorkerTrace app serverName appPort startingPort cores h
       else [Cmd.restartMatching app])
  else
    [Cmd.listWorkersAll app]

/-- Which container names a command mutates (stops, removes, restarts or
creates), given the inventory `st` current when it runs. -/
def cmdTargets (st : List Container) : Cmd → List String
  | .stopMatching app => (workersOf app st).map Container.name
  | .stopMatchingRunning app => (runningWorkersOf app st).map Container.name
  | .rmMatching app => (workersOf app st).map Container.name
  | .restartMatching app => (workersOf app st).map Container.name
  | .stopName n => [n]
  | .rmName n => [n]
  | .runContainer n _ _ _ _ _ => [n]
  | _ => []

/-- A command that creates a container. -/
def isCreate : Cmd → Bool
  | .runContainer _ _ _ _ _ _ => true
  | _ => false

/-- A command that stops or removes containers. -/
def isRemoveOrStop : Cmd → Bool
  | .stopMatching _ => true
  | .stopMatchingRunning _ => true
  | .rmMatching _ => true
  | .stopName _ => true
  | .rmName _ => true
  | _ => false

/-- Docker semantics of one command on a server's inventory.  `h` supplies
the success oracle for `docker run` (a failed run creates nothing); listing,
inspection and diagnostic commands do not change the inventory. -/
def applyCmd (h : Host) (st : List Container) : Cmd → List Container
  | .stopMatching app =>
      st.map (fun c =>
        if matchesWorkerFilter app c.name then { c with running := false } else c)
  | .stopMatchingRunning app =>
      st.map (fun c =>
        if matchesWorkerFilter app c.name && c.running then
          { c with running := false } else c)
  | .rmMatching app => st.filter (fun c => !matchesWorkerFilter app c.name)
  | .stopName n =>
      st.map (fun c => if c.name = n then { c with running := false } else c)
  | .rmName n => st.filter (fun c => !(c.name = n))
  | .runContainer n _ hp _ cid _ =>
      if h.runOk cid then st ++ [⟨n, hp, true⟩] else st
  | _ => st

/-- The server's inventory after `startWorkerContainers` runs against the
inventory `cs`: the start trace (computed against `cs`) interpreted by
`applyCmd`. -/
def reconcileInventory (app serverName : String)
    (appPort startingPort cores : ℤ) (h : Host) (cs : List Container) :
    List Container :=
  (startWorkerTrace app serverName appPort startingPort cores
      { h with containers := cs }).foldl (applyCmd h) cs

/-! ### Configuration schema validation (src/index.js `validate`) -/

/-- One entry of the structured validation result list. -/
structure ValidationDetail where
  message : String
  path : String
  deriving DecidableEq, Repr

/-- The `validate['multiCore']` body (lines 298-323): field-wise checks on
the global `multiCore` object, pushing at most one detail per field, in
source order (instances, startingPort, useNginx).  A `typeof` dispatch on a
field value is a match on its `JSVal` constructor. -/
def validateMultiCore (mc : Option MultiCoreSettings) : List ValidationDetail :=
  match mc with
  | none => []
  | some m =>
      (match m.instances with
       | .undef => []
       | .str s =>
           if s ≠ "auto" then
             [⟨"instances string value must be \"auto\"", "multiCore.instances"⟩]
           else []
       | .num q =>
           if q < 1 then
             [⟨"instances must be at least 1", "multiCore.instances"⟩]
           else []
       | .bool _ =>
           [⟨"instances must be \"auto\" or a number", "multiCore.instances"⟩]) ++
      (match m.startingPort with
       | .undef => []
       | .num q =>
           if q < 1024 ∨ q > 65535 then
             [⟨"startingPort must be between 1024 and 65535",
               "multiCore.startingPort"⟩]
           else []
       | _ => [⟨"startingPort must be a number", "multiCore.startingPort"⟩]) ++
      (match m.useNginx with
       | .undef => []
       | .bool _ => []
       | _ => [⟨"useNginx must be a boolean", "multiCore.useNginx"⟩])

/-- The per-server check body of `validate['app.servers']` (lines 330-357)
for one server whose `multiCore` object is present, with
`basePath = app.servers.${serverName}.multiCore`.  (The source's
`typeof multiCore !== 'object'` guard is unreachable in this typed model,
where a present `multiCore` is a settings object.) -/
def validateServerMultiCore (serverName : String) (m : MultiCoreSettings) :
    List ValidationDetail :=
  let basePath := "app.servers." ++ serverName ++ ".multiCore"
  (match m.instances with
   | .undef => []
   | .str s =>
       if s ≠ "auto" then
         [⟨"instances string value must be \"auto\"", basePath ++ ".instances"⟩]
       else []
   | .num q =>
       if q < 1 then
         [⟨"instances must be at least 1", basePath ++ ".instances"⟩]
       else []
   | .bool _ =>
       [⟨"instances must be \"auto\" or a number", basePath ++ ".instances"⟩]) ++
  (match m.startingPort with
   | .undef => []
   | .num q =>
       if q < 1024 ∨ q > 65535 then
         [⟨"startingPort must be between 1024 and 65535",
           basePath ++ ".startingPort"⟩]
       else []
   | _ => [⟨"startingPort must be a number", basePath ++ ".startingPort"⟩]) ++
  (match m.useNginx with
   | .undef => []
   | .bool _ => []
   | _ => [⟨"useNginx must be a boolean", basePath ++ ".useNginx"⟩])

/-- The whole `validate['app.servers']` body: iterate the server table,
checking each server that carries a `multiCore` object. -/
def validateAppServers (servers : List (String × Option MultiCoreSettings)) :
    List ValidationDetail :=
  servers.flatMap (fun p =>
    match p.2 with
    | none => []
    | some m => validateServerMultiCore p.1 m)

/-! ### The deploy hook and nginx gating (src/index.js lines 63-68, 372-383) -/

/-- What `hooks['post.default.deploy']` does, as a plan: whether
`updateMupNginx` is invoked at all, and the servers it then applies nginx
configuration to (`updateMupNginx` skips every server whose
`shouldUseNginx` is falsy).  `dockerConfigured` is `config.app && config.app.docker`,
`selected` the filtered server list. -/
def deployHookPlan (config : Config) (dockerConfigured : Bool)
    (selected : List String) : Bool × List String :=
  if dockerConfigured then
    if selected.any (fun s => truthy (shouldUseNginx config s)) then
      (true, selected.filter (fun s => truthy (shouldUseNginx config s)))
    else (false, [])
  else (false, [])

/-! ### The restart operation as a per-server plan (src/index.js lines 241-258) -/

/-- What `restartWorkerContainers` decides per server: the inventory query
threw; workers were found and restarted in place; or no workers were found
and `startWorkerContainers(api)` — the full reconciliation over the entire
selected server set — is invoked. -/
inductive RestartAction : Type
  | queryFailed : String → RestartAction
  | restarted : String → RestartAction
  | fullStart : List String → RestartAction
  deriving DecidableEq, Repr

/-- The restart plan: one action per selected server, chosen from that
server's live worker inventory (`none` = the query threw). -/
def restartPlan (app : String) (selected : List String)
    (inventory : String → Option (List Container)) : List RestartAction :=
  selected.map (fun s =>
    match inventory s with
    | none => .queryFailed s
    | some cs =>
        if (workersOf app cs).isEmpty then .fullStart selected
        else .restarted s)

/-! ### Derived views and spec-side predicates used by the theorems -/

/-- A command never mutates the primary: whatever the inventory when it runs,
every name it stops, removes, restarts or creates differs from `app` and
matches the worker name filter. -/
def SafeForPrimary (app : String) (c : Cmd) : Prop :=
  ∀ st : List Container, ∀ n ∈ cmdTargets st c,
    n ≠ app ∧ matchesWorkerFilter app n = true

/-- The `(name, hostPort, coreId)` descriptors of the container-creation
commands of a trace, in issuing order. -/
def createdDescriptors (l : List Cmd) : List (String × ℤ × ℤ) :=
  l.filterMap (fun c =>
    match c with
    | .runContainer n _ hp _ cid _ => some (n, hp, cid)
    | _ => none)

/-- The spec's validity condition for `instances`, as the validator actually
enforces it: absent, the literal `"auto"`, or a number `≥ 1` (the source
checks `typeof === 'number'`, not integrality). -/
def instancesFieldValid : JSVal → Prop
  | .undef => True
  | .str s => s = "auto"
  | .num q => 1 ≤ q
  | .bool _ => False

/-- `startingPort` validity as enforced: absent, or a number in
`[1024, 65535]`. -/
def startingPortFieldValid : JSVal → Prop
  | .undef => True
  | .num q => 1024 ≤ q ∧ q ≤ 65535
  | _ => False

/-- `useNginx` validity as enforced: absent or a boolean. -/
def useNginxFieldValid : JSVal → Prop
  | .undef => True
  | .bool _ => True
  | _ => False

/-- The claim's (stricter) reading of a valid present `instances` value:
the literal `"auto"` or an *integer* `≥ 1`. -/
def instancesClaimOK (v : JSVal) : Prop :=
  v = .str "auto" ∨ ∃ k : ℤ, 1 ≤ k ∧ v = .num (k : ℚ)

/-! ### Concrete instances used by counterexamples and witnesses -/

/-- The configuration refuting C1 as stated: the global `multiCore` sets
`useNginx: true` and server `web1`'s own `multiCore` sets `useNginx: false`. -/
def c1ConfigCE : Config :=
  { multiCore := some { useNginx := .bool true },
    serverConfigs := fun s =>
      if s = "web1" then some { useNginx := .bool false } else none }

/-- A host on which every remote interaction succeeds: one primary container,
a resolvable image, every `docker run` succeeding and reporting `Up`. -/
def happyHost : Host :=
  { containers := [⟨"myapp", 80, true⟩],
    inventoryQueryOk := true,
    imageResult := some "mup-myapp:latest",
    runOk := fun _ => true,
    startedUp := fun _ => true }

/-- A two-server inventory oracle for the restart witness: `web1` answers
with no containers at all, `web2` with one worker. -/
def c10Inventory : String → Option (List Container) := fun s =>
  if s = "web1" then some [] else some [⟨"myapp-worker-1", 3001, true⟩]

/-! ### Helper lemmas about the name filter -/

theorem containsSub_length {s pat : List Char} (h : containsSub s pat = true) :
    pat.length ≤ s.length := by
  rw [containsSub, List.any_eq_true] at h
  obtain ⟨t, ht, hp⟩ := h
  rw [List.mem_tails] at ht
  rw [List.isPrefixOf_iff_prefix] at hp
  exact le_trans hp.length_le ht.length_le

theorem containsSub_of_prefix {s pat : List Char} (h : pat <+: s) :
    containsSub s pat = true := by
  rw [containsSub, List.any_eq_true]
  exact ⟨s, (List.mem_tails s s).mpr (List.suffix_refl s),
    List.isPrefixOf_iff_prefix.mpr h⟩

/-- The worker name filter never matches the primary container, whose name is
exactly `app`: a string cannot contain a strict superstring of itself. -/
theorem matchesWorkerFilter_primary (app : String) :
    matchesWorkerFilter app app = false := by
  by_contra hne
  have h : matchesWorkerFilter app app = true := by
    cases hmf : matchesWorkerFilter app app
    · exact absurd hmf hne
    · rfl
  have hlen := containsSub_length h
  have hdata : (app ++ "-worker").toList = app.toList ++ ("-worker" : String).toList := by
    simp [String.toList, String.data_append]
  rw [hdata, List.length_append] at hlen
  have h7 : ("-worker" : String).toList.length = 7 := by decide
  omega

/-- The worker name filter matches every generated worker container name. -/
theorem matchesWorkerFilter_workerName (app : String) (i : ℤ) :
    matchesWorkerFilter app (workerName app i) = true := by
  apply containsSub_of_prefix
  show (app ++ "-worker").toList <+: (app ++ "-worker-" ++ toString i).toList
  have hsplit : ("-worker-" : String).toList = ("-worker" : String).toList ++ ['-'] := by
    decide
  simp only [String.toList, String.data_append]
  show app.data ++ ("-worker" : String).data <+:
    app.data ++ ("-worker-" : String).data ++ (toString i).data
  rw [show ("-worker-" : String).data = ("-worker" : String).data ++ ['-'] from hsplit]
  rw [List.append_assoc, List.append_assoc, ← List.append_assoc app.data]
  exact List.prefix_append _ _

/-- No generated worker container name equals the primary's name. -/
theorem workerName_ne_primary (app : String) (i : ℤ) : workerName app i ≠ app := by
  intro h
  have := matchesWorkerFilter_workerName app i
  rw [h, matchesWorkerFilter_primary] at this
  exact Bool.false_ne_true this

/-! ### Trace structure lemmas -/

theorem mem_fallbackCleanup {app : String} {c : Cmd}
    (hc : c ∈ fallbackCleanup app) :
    ∃ i : ℤ, 1 ≤ i ∧ i ≤ 10 ∧
      (c = Cmd.stopName (workerName app i) ∨ c = Cmd.rmName (workerName app i)) := by
  rw [fallbackCleanup, List.mem_flatMap] at hc
  obtain ⟨j, hj, hcj⟩ := hc
  rw [List.mem_range] at hj
  refine ⟨(j : ℤ) + 1, by omega, by omega, ?_⟩
  simpa using hcj

theorem fallbackCleanup_mem_of_slot (app : String) {i : ℤ} (h1 : 1 ≤ i)
    (h2 : i ≤ 10) :
    Cmd.stopName (workerName app i) ∈ fallbackCleanup app ∧
      Cmd.rmName (workerName app i) ∈ fallbackCleanup app := by
  have hji : (((i - 1).toNat : ℤ)) + 1 = i := by omega
  constructor <;>
    (rw [fallbackCleanup, List.mem_flatMap]
     exact ⟨(i - 1).toNat, List.mem_range.mpr (by omega), by rw [hji]; simp⟩)

theorem isCreate_of_mem_cleanup {app : String} {h : Host} {c : Cmd}
    (hc : c ∈ cleanupCmds app h) : isCreate c = false := by
  rw [cleanupCmds] at hc
  split at hc
  · rcases List.mem_cons.mp hc with rfl | hc
    · rfl
    · split at hc
      · simp at hc
      · rcases (by simpa using hc : c = Cmd.stopMatching app ∨ c = Cmd.rmMatching app) with
          rfl | rfl <;> rfl
  · rcases List.mem_cons.mp hc with rfl | hc
    · rfl
    · obtain ⟨i, _, _, hco | hco⟩ := mem_fallbackCleanup hc <;> subst hco <;> rfl

theorem mem_slotCmds {app sn : String} {ap p : ℤ} {img : String} {h : Host}
    {i : ℤ} {c : Cmd} (hc : c ∈ slotCmds app sn ap p img h i) :
    c = Cmd.runContainer (workerName app i) (workerHostname sn app i)
          (p + i - 1) ap i img ∨
      c = Cmd.psStatusName (workerName app i) ∨
      c = Cmd.logsName (workerName app i) ∨ c = Cmd.imagesCheck img := by
  rw [slotCmds] at hc
  rcases List.mem_cons.mp hc with rfl | hc
  · exact Or.inl rfl
  · split at hc
    · rcases List.mem_cons.mp hc with rfl | hc
      · exact Or.inr (Or.inl rfl)
      · split at hc
        · simp at hc
        · rcases (by simpa using hc :
              c = Cmd.logsName (workerName app i) ∨ c = Cmd.imagesCheck img) with
            rfl | rfl
          · exact Or.inr (Or.inr (Or.inl rfl))
          · exact Or.inr (Or.inr (Or.inr rfl))
    · simp at hc

theorem not_removeOrStop_of_mem_slotCmds {app sn : String} {ap p : ℤ}
    {img : String} {h : Host} {i : ℤ} {c : Cmd}
    (hc : c ∈ slotCmds app sn ap p img h i) : isRemoveOrStop c = false := by
  rcases mem_slotCmds hc with rfl | rfl | rfl | rfl <;> rfl

/-! ### Primary-safety of every issued command -/

theorem safe_target_of_matching {app n : String}
    (hm : matchesWorkerFilter app n = true) :
    n ≠ app ∧ matchesWorkerFilter app n = true :=
  ⟨fun he => by
      rw [he, matchesWorkerFilter_primary] at hm
      exact Bool.false_ne_true hm, hm⟩

theorem safeForPrimary_workerNamed (app : String) {c : Cmd}
    (hc : ∃ i : ℤ, c = Cmd.stopName (workerName app i) ∨
        c = Cmd.rmName (workerName app i) ∨
        ∃ hn hp ap img, c = Cmd.runContainer (workerName app i) hn hp ap i img) :
    SafeForPrimary app c := by
  obtain ⟨i, hco | hco | ⟨hn, hp, ap, img, hco⟩⟩ := hc <;> subst hco <;>
    (intro st n hn'
     rcases (by simpa [cmdTargets] using hn' : n = workerName app i) with rfl
     exact safe_target_of_matching (matchesWorkerFilter_workerName app i))

theorem safeForPrimary_matching (app : String) {c : Cmd}
    (hc : c = Cmd.stopMatching app ∨ c = Cmd.stopMatchingRunning app ∨
        c = Cmd.rmMatching app ∨ c = Cmd.restartMatching app) :
    SafeForPrimary app c := by
  rcases hc with rfl | rfl | rfl | rfl <;>
    (intro st n hn
     simp only [cmdTargets, List.mem_map] at hn
     obtain ⟨cc, hcc, rfl⟩ := hn
     first
       | exact safe_target_of_matching ((List.mem_filter.mp hcc).2)
       | exact safe_target_of_matching
           (by
             have hb := (List.mem_filter.mp hcc).2
             exact (Bool.and_eq_true_iff.mp hb).1))

theorem safeForPrimary_inert (app : String) {c : Cmd}
    (hc : (∃ n, c = Cmd.listWorkersAll n) ∨ (∃ n, c = Cmd.listWorkersRunning n) ∨
        (∃ n, c = Cmd.inspectImage n) ∨ (∃ n, c = Cmd.psStatusName n) ∨
        (∃ n, c = Cmd.logsName n) ∨ (∃ n, c = Cmd.imagesCheck n) ∨
        (∃ n, c = Cmd.psGrep n)) :
    SafeForPrimary app c := by
  obtain ⟨n, hco⟩ | ⟨n, hco⟩ | ⟨n, hco⟩ | ⟨n, hco⟩ | ⟨n, hco⟩ | ⟨n, hco⟩ | ⟨n, hco⟩ := hc <;>
    subst hco <;> intro st m hm <;> simp [cmdTargets] at hm

theorem safe_cleanupCmds (app : String) (h : Host) :
    ∀ c ∈ cleanupCmds app h, SafeForPrimary app c := by
  intro c hc
  rw [cleanupCmds] at hc
  split at hc
  · rcases List.mem_cons.mp hc with rfl | hc
    · exact safeForPrimary_inert app (Or.inl ⟨app, rfl⟩)
    · split at hc
      · simp at hc
      · rcases (by simpa using hc : c = Cmd.stopMatching app ∨ c = Cmd.rmMatching app) with
          rfl | rfl
        · exact safeForPrimary_matching app (Or.inl rfl)
        · exact safeForPrimary_matching app (Or.inr (Or.inr (Or.inl rfl)))
  · rcases List.mem_cons.mp hc with rfl | hc
    · exact safeForPrimary_inert app (Or.inl ⟨app, rfl⟩)
    · obtain ⟨i, _, _, hco | hco⟩ := mem_fallbackCleanup hc
      · exact safeForPrimary_workerNamed app ⟨i, Or.inl hco⟩
      · exact safeForPrimary_workerNamed app ⟨i, Or.inr (Or.inl hco)⟩

theorem safe_slotCmds (app sn : String) (ap p : ℤ) (img : String) (h : Host)
    (i : ℤ) : ∀ c ∈ slotCmds app sn ap p img h i, SafeForPrimary app c := by
  intro c hc
  rcases mem_slotCmds hc with rfl | rfl | rfl | rfl
  · exact safeForPrimary_workerNamed app
      ⟨i, Or.inr (Or.inr ⟨workerHostname sn app i, p + i - 1, ap, img, rfl⟩)⟩
  · exact safeForPrimary_inert app (Or.inr (Or.inr (Or.inr (Or.inl ⟨_, rfl⟩))))
  · exact safeForPrimary_inert app
      (Or.inr (Or.inr (Or.inr (Or.inr (Or.inl ⟨_, rfl⟩)))))
  · exact safeForPrimary_inert app
      (Or.inr (Or.inr (Or.inr (Or.inr (Or.inr (Or.inl ⟨_, rfl⟩))))))

theorem safe_startWorkerTrace (app sn : String) (ap p cores : ℤ) (h : Host) :
    ∀ c ∈ startWorkerTrace app sn ap p cores h, SafeForPrimary app c := by
  intro c hc
  rw [startWorkerTrace] at hc
  split at hc
  · exact safe_cleanupCmds app h c hc
  · split at hc
    · rcases (by simpa using hc : c = Cmd.inspectImage app) with rfl
      exact safeForPrimary_inert app (Or.inr (Or.inr (Or.inl ⟨_, rfl⟩)))
    · split at hc
      · rcases (by simpa using hc : c = Cmd.inspectImage app) with rfl
        exact safeForPrimary_inert app (Or.inr (Or.inr (Or.inl ⟨_, rfl⟩)))
      · rcases List.mem_cons.mp hc with rfl | hc
        · exact safeForPrimary_inert app (Or.inr (Or.inr (Or.inl ⟨_, rfl⟩)))
        · rcases List.mem_append.mp hc with hc | hc
          · rcases List.mem_append.mp hc with hc | hc
            · exact safe_cleanupCmds app h c hc
            · rw [List.mem_flatMap] at hc
              obtain ⟨i, _, hci⟩ := hc
              exact safe_slotCmds app sn ap p _ h i c hci
          · rcases (by simpa using hc : c = Cmd.psGrep app) with rfl
            exact safeForPrimary_inert app
              (Or.inr (Or.inr (Or.inr (Or.inr (Or.inr (Or.inr ⟨_, rfl⟩))))))

theorem safe_stopWorkerTrace (app : String) (h : Host) :
    ∀ c ∈ stopWorkerTrace app h, SafeForPrimary app c := by
  intro c hc
  rw [stopWorkerTrace] at hc
  split at hc
  · rcases List.mem_cons.mp hc with rfl | hc
    · exact safeForPrimary_inert app (Or.inr (Or.inl ⟨_, rfl⟩))
    · split at hc
      · simp at hc
      · rcases (by simpa using hc :
            c = Cmd.stopMatchingRunning app ∨ c = Cmd.rmMatching app) with rfl | rfl
        · exact safeForPrimary_matching app (Or.inr (Or.inl rfl))
        · exact safeForPrimary_matching app (Or.inr (Or.inr (Or.inl rfl)))
  · rcases (by simpa using hc : c = Cmd.listWorkersRunning app) with rfl
    exact safeForPrimary_inert app (Or.inr (Or.inl ⟨_, rfl⟩))

theorem safe_restartWorkerTraceOne (app sn : String) (ap p cores : ℤ)
    (h : Host) :
    ∀ c ∈ restartWorkerTraceOne app sn ap p cores h, SafeForPrimary app c := by
  intro c hc
  rw [restartWorkerTraceOne] at hc
  split at hc
  · rcases List.mem_cons.mp hc with rfl | hc
    · exact safeForPrimary_inert app (Or.inl ⟨_, rfl⟩)
    · split at hc
      · exact safe_startWorkerTrace app sn ap p cores h c hc
      · rcases (by simpa using hc : c = Cmd.restartMatching app) with rfl
        exact safeForPrimary_matching app (Or.inr (Or.inr (Or.inr rfl)))
  · rcases (by simpa using hc : c = Cmd.listWorkersAll app) with rfl
    exact safeForPrimary_inert app (Or.inl ⟨_, rfl⟩)

/-! ### C1: configuration precedence -/

/-- The `a || b || default` chain of the three resolver functions: the first
truthy operand wins; a defined but falsy operand is skipped. -/
theorem jsOr_chain (a b c : JSVal) :
    (truthy a = true → jsOr (jsOr a b) c = a) ∧
    (truthy a = false → truthy b = true → jsOr (jsOr a b) c = b) ∧
    (truthy a = false → truthy b = false → jsOr (jsOr a b) c = c) := by
  refine ⟨?_, ?_, ?_⟩ <;> intros <;> simp [jsOr, *]

/-- C1 counterexample: server `web1` defines `useNginx := false` in its own
`multiCore` settings, yet the resolved value is the global `true` — the
`||` chain skips a defined-but-falsy per-server value, so a per-server value
does not always win over the global one. -/
theorem c1_counterexample :
    fieldUseNginx (c1ConfigCE.serverConfigs "web1") = JSVal.bool false ∧
    shouldUseNginx c1ConfigCE "web1" = JSVal.bool true := by
  constructor <;> rfl

/-- C1 (amended): for each of the three fields independently, the effective
value for server S is the per-server value when that value is defined and
truthy, else the global value when defined and truthy, else the documented
default (`instances="auto"`, `startingPort=3001`, `useNginx=false`); in
particular a truthy per-server value always wins over the global value,
but a defined falsy per-server value (such as `useNginx: false`) falls
through to the global value. -/
theorem c1_effective_config_precedence (config : Config) (s : String) :
    ((truthy (fieldInstances (config.serverConfigs s)) = true →
        getInstanceCount config s = fieldInstances (config.serverConfigs s)) ∧
     (truthy (fieldInstances (config.serverConfigs s)) = false →
        truthy (fieldInstances config.multiCore) = true →
        getInstanceCount config s = fieldInstances config.multiCore) ∧
     (truthy (fieldInstances (config.serverConfigs s)) = false →
        truthy (fieldInstances config.multiCore) = false →
        getInstanceCount config s = JSVal.str "auto")) ∧
    ((truthy (fieldStartingPort (config.serverConfigs s)) = true →
        getStartingPort config s = fieldStartingPort (config.serverConfigs s)) ∧
     (truthy (fieldStartingPort (config.serverConfigs s)) = false →
        truthy (fieldStartingPort config.multiCore) = true →
        getStartingPort config s = fieldStartingPort config.multiCore) ∧
     (truthy (fieldStartingPort (config.serverConfigs s)) = false →
        truthy (fieldStartingPort config.multiCore) = false →
        getStartingPort config s = JSVal.num 3001)) ∧
    ((truthy (fieldUseNginx (config.serverConfigs s)) = true →
        shouldUseNginx config s = fieldUseNginx (config.serverConfigs s)) ∧
     (truthy (fieldUseNginx (config.serverConfigs s)) = false →
        truthy (fieldUseNginx config.multiCore) = true →
        shouldUseNginx config s = fieldUseNginx config.multiCore) ∧
     (truthy (fieldUseNginx (config.serverConfigs s)) = false →
        truthy (fieldUseNginx config.multiCore) = false →
        shouldUseNginx config s = JSVal.bool false)) :=
  ⟨jsOr_chain _ _ _, jsOr_chain _ _ _, jsOr_chain _ _ _⟩

/-! ### C2: core-count fallback -/

/-- C2 counterexample: a probe that resolves with the malformed output
`"N/A"` does not produce the fallback value 2 — `parseInt` yields `NaN`
(modelled `none`), which is returned to the caller unchanged. -/
theorem c2_counterexample :
    detectCores (ProbeResult.ok "N/A") ≠ some 2 ∧
    detectCores (ProbeResult.ok "N/A") = none := by
  constructor
  · decide
  · rfl

/-- C2 (amended): the resolver substitutes the fixed fallback value 2
exactly when the remote probe command itself throws (unreachable host,
non-zero exit); when the command resolves, its trimmed output is passed
through `parseInt` and the result — `NaN` (modelled `none`) for
non-numeric output — is returned as-is, without raising an error. -/
theorem c2_fallback_policy :
    detectCores ProbeResult.err = some 2 ∧
    (∀ s : String, detectCores (ProbeResult.ok s) = parseIntJS (jsTrim s)) ∧
    detectCores (ProbeResult.ok " 8 ") = some 8 := by
  refine ⟨rfl, fun s => rfl, by decide⟩

/-! ### C3: cleanup strictly precedes creation -/

/-- C3: within one server's reconciliation the trace splits into a region
with no creation command followed by a region with no stop/remove command,
so every removal strictly precedes every creation; when the inventory query
succeeds and finds workers, the stop-all and remove-all commands are issued
and target every found worker regardless of slot number; and in the
creation branch the whole cleanup step is part of the trace before any
worker is created. -/
theorem c3_removal_precedes_creation (app serverName : String)
    (appPort startingPort cores : ℤ) (h : Host) :
    (∃ A B, startWorkerTrace app serverName appPort startingPort cores h = A ++ B ∧
       (∀ c ∈ A, isCreate c = false) ∧ (∀ c ∈ B, isRemoveOrStop c = false)) ∧
    (h.inventoryQueryOk = true → (workersOf app h.containers).isEmpty = false →
       Cmd.stopMatching app ∈ cleanupCmds app h ∧
       Cmd.rmMatching app ∈ cleanupCmds app h ∧
       ∀ c ∈ workersOf app h.containers,
         c.name ∈ cmdTargets h.containers (Cmd.rmMatching app)) ∧
    (∀ out, 1 < cores → h.imageResult = some out → jsTrim out ≠ "" →
       ∀ c ∈ cleanupCmds app h,
         c ∈ startWorkerTrace app serverName appPort startingPort cores h) := by
  refine ⟨?_, ?_, ?_⟩
  · rw [startWorkerTrace]
    split
    · exact ⟨cleanupCmds app h, [], by simp,
        fun c hc => isCreate_of_mem_cleanup hc, by simp⟩
    · cases himg : h.imageResult with
      | none =>
          exact ⟨[], [Cmd.inspectImage app], by simp, by simp,
            fun c hc => by rcases (by simpa using hc : c = Cmd.inspectImage app) with rfl; rfl⟩
      | some out =>
          by_cases hne : jsTrim out = ""
          · exact ⟨[], [Cmd.inspectImage app], by simp [hne], by simp,
              fun c hc => by rcases (by simpa using hc : c = Cmd.inspectImage app) with rfl; rfl⟩
          · refine ⟨Cmd.inspectImage app :: cleanupCmds app h,
              (slotList cores).flatMap
                  (slotCmds app serverName appPort startingPort (jsTrim out) h) ++
                [Cmd.psGrep app], by simp [hne], ?_, ?_⟩
            · intro c hc
              rcases List.mem_cons.mp hc with rfl | hc
              · rfl
              · exact isCreate_of_mem_cleanup hc
            · intro c hc
              rcases List.mem_append.mp hc with hc | hc
              · rw [List.mem_flatMap] at hc
                obtain ⟨i, _, hci⟩ := hc
                exact not_removeOrStop_of_mem_slotCmds hci
              · rcases (by simpa using hc : c = Cmd.psGrep app) with rfl; rfl
  · intro hq hne
    rw [cleanupCmds, if_pos hq, hne]
    refine ⟨by simp, by simp, ?_⟩
    intro c hc
    simp only [cmdTargets]
    exact List.mem_map_of_mem Container.name hc
  · intro out hcores himg hne c hc
    rw [startWorkerTrace, if_neg (by omega), himg]
    simp only [if_neg hne]
    exact List.mem_cons_of_mem _ (List.mem_append_left _ (List.mem_append_left _ hc))

/-! ### C4: the generated slot set -/

theorem createdDescriptors_eq_nil_of_no_create {l : List Cmd}
    (h : ∀ c ∈ l, isCreate c = false) : createdDescriptors l = [] := by
  induction l with
  | nil => rfl
  | cons c l ih =>
      have hc := h c (List.mem_cons_self c l)
      have hl := ih (fun c' hc' => h c' (List.mem_cons_of_mem c hc'))
      cases c <;>
        first
          | simpa [createdDescriptors, List.filterMap_cons] using hl
          | simp [isCreate] at hc

theorem createdDescriptors_append (l₁ l₂ : List Cmd) :
    createdDescriptors (l₁ ++ l₂) = createdDescriptors l₁ ++ createdDescriptors l₂ :=
  List.filterMap_append l₁ l₂ _

theorem createdDescriptors_slotCmds (app sn : String) (ap p : ℤ) (img : String)
    (h : Host) (i : ℤ) :
    createdDescriptors (slotCmds app sn ap p img h i) =
      [(workerName app i, p + i - 1, i)] := by
  rw [slotCmds]
  split
  · split <;> rfl
  · rfl

theorem createdDescriptors_slots (app sn : String) (ap p : ℤ) (img : String)
    (h : Host) (l : List ℤ) :
    createdDescriptors (l.flatMap (slotCmds app sn ap p img h)) =
      l.map (fun i => (workerName app i, p + i - 1, i)) := by
  induction l with
  | nil => rfl
  | cons i l ih =>
      rw [List.flatMap_cons, createdDescriptors_append,
        createdDescriptors_slotCmds, ih]
      rfl

theorem mem_slotList (cores i : ℤ) : i ∈ slotList cores ↔ 1 ≤ i ∧ i ≤ cores - 1 := by
  rw [slotList, List.mem_map]
  constructor
  · rintro ⟨j, hj, rfl⟩
    rw [List.mem_range] at hj
    omega
  · rintro ⟨h1, h2⟩
    exact ⟨(i - 1).toNat, List.mem_range.mpr (by omega), by omega⟩

/-- C4: the loop generates exactly the slots `{1, ..., cores-1}`; when the
primary's image is discovered, the creation commands issued are exactly one
per slot `i` with name `appName-worker-i`, host port `startingPort + i - 1`
and identity variable `CORE_ID = i`; when `cores ≤ 1` no worker is created;
and the spec's scenario (`myapp`, port 3001, 4 cores) yields exactly
workers 1-3 on ports 3001-3003. -/
theorem c4_slot_generation (app serverName : String)
    (appPort startingPort cores : ℤ) (h : Host) :
    (∀ i : ℤ, i ∈ slotList cores ↔ 1 ≤ i ∧ i ≤ cores - 1) ∧
    (∀ out, h.imageResult = some out → jsTrim out ≠ "" →
       createdDescriptors
           (startWorkerTrace app serverName appPort startingPort cores h) =
         (slotList cores).map (fun i => (workerName app i, startingPort + i - 1, i))) ∧
    (cores ≤ 1 →
       createdDescriptors
           (startWorkerTrace app serverName appPort startingPort cores h) = [] ∧
       slotList cores = []) ∧
    createdDescriptors (startWorkerTrace "myapp" "web1" 3000 3001 4 happyHost) =
      [("myapp-worker-1", 3001, 1), ("myapp-worker-2", 3002, 2),
       ("myapp-worker-3", 3003, 3)] := by
  refine ⟨mem_slotList cores, ?_, ?_, by decide⟩
  · intro out himg hne
    rw [startWorkerTrace]
    split
    · rw [createdDescriptors_eq_nil_of_no_create
        (fun c hc => isCreate_of_mem_cleanup hc)]
      have : slotList cores = [] := by
        rw [slotList]
        have : (cores - 1).toNat = 0 := by omega
        rw [this]
        rfl
      rw [this]
      rfl
    · rw [himg]
      simp only [if_neg hne]
      rw [show ∀ (c : Cmd) (l : List Cmd), c :: l = [c] ++ l from fun _ _ => rfl,
        createdDescriptors_append, createdDescriptors_append,
        createdDescriptors_append, createdDescriptors_slots,
        createdDescriptors_eq_nil_of_no_create
          (fun c hc => isCreate_of_mem_cleanup hc)]
      simp [createdDescriptors]
  · intro hle
    have hsl : slotList cores = [] := by
      rw [slotList]
      have : (cores - 1).toNat = 0 := by omega
      rw [this]
      rfl
    refine ⟨?_, hsl⟩
    rw [startWorkerTrace, if_pos hle]
    exact createdDescriptors_eq_nil_of_no_create
      (fun c hc => isCreate_of_mem_cleanup hc)

/-! ### C5: the primary is never touched -/

/-- C5: across start, stop and restart reconciliation of a server, every
command that stops, removes, restarts or creates containers targets only
names matching the worker filter (names containing `appName-worker`), and
never the name `appName` itself — the primary container is never stopped,
removed or created by the plugin, whatever the live inventory. -/
theorem c5_primary_never_targeted (app serverName : String)
    (appPort startingPort cores : ℤ) (h : Host) :
    (∀ c ∈ startWorkerTrace app serverName appPort startingPort cores h,
       SafeForPrimary app c) ∧
    (∀ c ∈ stopWorkerTrace app h, SafeForPrimary app c) ∧
    (∀ c ∈ restartWorkerTraceOne app serverName appPort startingPort cores h,
       SafeForPrimary app c) :=
  ⟨safe_startWorkerTrace app serverName appPort startingPort cores h,
   safe_stopWorkerTrace app h,
   safe_restartWorkerTraceOne app serverName appPort startingPort cores h⟩

/-! ### C9: bounded fallback cleanup -/

/-- C9: when the live worker-inventory query fails, the cleanup issued is
the listing attempt followed by exactly the fixed fallback block; that block
consists solely of best-effort stop/remove commands for slots 1 through 10,
contains both commands for every such slot, and has exactly 20 commands —
a bound independent of the host, so cleanup never issues an unbounded
number of remote calls. -/
theorem c9_bounded_fallback (app : String) (h : Host) :
    (h.inventoryQueryOk = false →
       cleanupCmds app h = Cmd.listWorkersAll app :: fallbackCleanup app) ∧
    (∀ c ∈ fallbackCleanup app, ∃ i : ℤ, 1 ≤ i ∧ i ≤ 10 ∧
       (c = Cmd.stopName (workerName app i) ∨ c = Cmd.rmName (workerName app i))) ∧
    (∀ i : ℤ, 1 ≤ i → i ≤ 10 →
       Cmd.stopName (workerName app i) ∈ fallbackCleanup app ∧
       Cmd.rmName (workerName app i) ∈ fallbackCleanup app) ∧
    (fallbackCleanup app).length = 20 := by
  refine ⟨?_, fun c hc => mem_fallbackCleanup hc,
    fun i h1 h2 => fallbackCleanup_mem_of_slot app h1 h2, ?_⟩
  · intro hq
    rw [cleanupCmds, if_neg (by rw [hq]; exact Bool.false_ne_true)]
  · simp [fallbackCleanup, List.length_flatMap, Function.comp_def]

/-! ### C8: nginx application gating -/

/-- C8: nginx configuration is applied to a server only when that server's
effective `useNginx` is truthy; and when it is falsy for every selected
server, the deploy hook does not invoke the nginx-update step at all and no
server receives nginx configuration. -/
theorem c8_nginx_gating (config : Config) (dockerConfigured : Bool)
    (selected : List String) :
    (∀ s ∈ (deployHookPlan config dockerConfigured selected).2,
       truthy (shouldUseNginx config s) = true) ∧
    ((∀ s ∈ selected, truthy (shouldUseNginx config s) = false) →
       deployHookPlan config dockerConfigured selected = (false, [])) := by
  constructor
  · intro s hs
    rw [deployHookPlan] at hs
    split at hs
    · split at hs
      · exact (List.mem_filter.mp hs).2
      · simp at hs
    · simp at hs
  · intro hall
    rw [deployHookPlan]
    split
    · rw [if_neg]
      intro hany
      rw [List.any_eq_true] at hany
      obtain ⟨s, hs, htr⟩ := hany
      rw [hall s hs] at htr
      exact Bool.false_ne_true htr
    · rfl

/-! ### C10: restart escalates to a full start of the whole selection -/

/-- C10: whenever the worker-inventory query of some selected server returns
an empty list, the restart operation invokes the full worker-start
reconciliation for the entire selected server set, not only for that
server. -/
theorem c10_restart_escalates (app : String) (selected : List String)
    (inventory : String → Option (List Container)) (s0 : String)
    (cs : List Container) (hmem : s0 ∈ selected) (hinv : inventory s0 = some cs)
    (hempty : (workersOf app cs).isEmpty = true) :
    RestartAction.fullStart selected ∈ restartPlan app selected inventory := by
  rw [restartPlan]
  apply List.mem_map.mpr
  refine ⟨s0, hmem, ?_⟩
  rw [hinv]
  simp [hempty]

/-- C10 witness: with selection `[web1, web2]` where `web1` has no
containers at all, the plan contains the full start of both servers. -/
theorem c10_restart_escalates_witness :
    RestartAction.fullStart ["web1", "web2"] ∈
      restartPlan "myapp" ["web1", "web2"] c10Inventory :=
  c10_restart_escalates "myapp" ["web1", "web2"] c10Inventory "web1" []
    (by decide) rfl rfl

/-! ### C6: idempotence of reconciliation -/

theorem filter_stopMap (app : String) (cs : List Container) :
    ((cs.map (fun c =>
        if matchesWorkerFilter app c.name then { c with running := false }
        else c)).filter (fun c => !matchesWorkerFilter app c.name)) =
      cs.filter (fun c => !matchesWorkerFilter app c.name) := by
  induction cs with
  | nil => rfl
  | cons c cs ih =>
      by_cases hm : matchesWorkerFilter app c.name
      · simp [hm, ih]
      · simp [hm, ih]

theorem foldl_cleanupCmds (app : String) (h : Host) (cs : List Container)
    (hq : h.inventoryQueryOk = true) :
    (cleanupCmds app { h with containers := cs }).foldl (applyCmd h) cs =
      cs.filter (fun c => !matchesWorkerFilter app c.name) := by
  rw [cleanupCmds]
  simp only [hq, if_true]
  by_cases he : (workersOf app cs).isEmpty
  · rw [if_pos he]
    have hnil : workersOf app cs = [] := by
      rwa [List.isEmpty_iff] at he
    rw [workersOf] at hnil
    have hall : ∀ c ∈ cs, (!matchesWorkerFilter app c.name) = true := by
      intro c hc
      have := List.filter_eq_nil_iff.mp hnil c hc
      simpa using this
    rw [List.filter_eq_self.mpr hall]
    rfl
  · rw [if_neg he]
    show applyCmd h (applyCmd h (applyCmd h cs (Cmd.listWorkersAll app))
        (Cmd.stopMatching app)) (Cmd.rmMatching app) = _
    rw [show applyCmd h cs (Cmd.listWorkersAll app) = cs from rfl]
    exact filter_stopMap app cs

theorem foldl_slotCmds (app sn : String) (ap p : ℤ) (img : String)
    (h' h : Host) (hro : ∀ i, h'.runOk i = h.runOk i) (l : List ℤ)
    (st : List Container) :
    (l.flatMap (slotCmds app sn ap p img h')).foldl (applyCmd h) st =
      st ++ (l.filter h.runOk).map
        (fun i => ⟨workerName app i, p + i - 1, true⟩) := by
  induction l generalizing st with
  | nil => simp
  | cons i l ih =>
      rw [List.flatMap_cons, List.foldl_append]
      by_cases hr : h.runOk i
      · by_cases hs : h'.startedUp i <;>
          simp [slotCmds, applyCmd, hro, hr, hs, ih, List.filter_cons]
      · simp [slotCmds, applyCmd, hro, hr, ih, List.filter_cons]

/-- Closed form of the post-reconciliation inventory when the inventory
query succeeds: `cores ≤ 1` leaves only non-matching containers; a failed
or empty image discovery leaves the inventory untouched; otherwise every
matching container is removed and the successfully started workers are
appended. -/
theorem reconcileInventory_closed (app sn : String) (ap p cores : ℤ)
    (h : Host) (cs : List Container) (hq : h.inventoryQueryOk = true) :
    reconcileInventory app sn ap p cores h cs =
      if cores ≤ 1 then cs.filter (fun c => !matchesWorkerFilter app c.name)
      else
        match h.imageResult with
        | none => cs
        | some out =>
            if jsTrim out = "" then cs
            else
              cs.filter (fun c => !matchesWorkerFilter app c.name) ++
                ((slotList cores).filter h.runOk).map
                  (fun i => ⟨workerName app i, p + i - 1, true⟩) := by
  rw [reconcileInventory, startWorkerTrace]
  by_cases hc : cores ≤ 1
  · rw [if_pos hc, if_pos hc]
    exact foldl_cleanupCmds app h cs hq
  · rw [if_neg hc, if_neg hc]
    dsimp only
    split
    · rfl
    · next out heq =>
        by_cases hne : jsTrim out = ""
        · rw [if_pos hne, if_pos hne]
          rfl
        · rw [if_neg hne, if_neg hne]
          rw [List.foldl_cons,
            show applyCmd h cs (Cmd.inspectImage app) = cs from rfl,
            List.foldl_append, List.foldl_append, foldl_cleanupCmds app h cs hq,
            foldl_slotCmds app sn ap p (jsTrim out) { h with containers := cs } h
              (fun _ => rfl)]
          rfl

/-- C6: with a working inventory query, running `startWorkerContainers`
again on the inventory the first run left behind — same appName, desired
core count and starting port — yields exactly the same inventory (same
container names bound to the same ports) as running it once. -/
theorem c6_reconcile_idempotent (app serverName : String)
    (appPort startingPort cores : ℤ) (h : Host) (cs : List Container)
    (hq : h.inventoryQueryOk = true) :
    reconcileInventory app serverName appPort startingPort cores h
        (reconcileInventory app serverName appPort startingPort cores h cs) =
      reconcileInventory app serverName appPort startingPort cores h cs := by
  rw [reconcileInventory_closed app serverName appPort startingPort cores h cs hq,
    reconcileInventory_closed app serverName appPort startingPort cores h _ hq]
  by_cases hc : cores ≤ 1
  · simp only [if_pos hc]
    simp [List.filter_filter]
  · simp only [if_neg hc]
    split
    · rfl
    · next out heq =>
        by_cases hne : jsTrim out = ""
        · simp only [if_pos hne]
        · simp only [if_neg hne]
          have hcreated :
              (((slotList cores).filter h.runOk).map
                  (fun i => (⟨workerName app i, startingPort + i - 1, true⟩ :
                    Container))).filter
                (fun c => !matchesWorkerFilter app c.name) = [] := by
            rw [List.filter_eq_nil_iff]
            intro c hcmem
            obtain ⟨i, _, rfl⟩ := List.mem_map.mp hcmem
            simp [matchesWorkerFilter_workerName app i]
          rw [List.filter_append, List.filter_filter, hcreated]
          simp

/-- C6 witness: a concrete all-success host and a primary-only starting
inventory. -/
theorem c6_reconcile_idempotent_witness :
    reconcileInventory "myapp" "web1" 3000 3001 3 happyHost
        (reconcileInventory "myapp" "web1" 3000 3001 3 happyHost
          [⟨"myapp", 80, true⟩]) =
      reconcileInventory "myapp" "web1" 3000 3001 3 happyHost
        [⟨"myapp", 80, true⟩] :=
  c6_reconcile_idempotent "myapp" "web1" 3000 3001 3 happyHost
    [⟨"myapp", 80, true⟩] rfl

/-! ### C7: schema validation -/

theorem pathShift (pre mid tail rest : String) (hlit : mid ++ tail = "." ++ rest) :
    (pre ++ mid) ++ tail = (pre ++ ".") ++ rest := by
  rw [String.append_assoc, String.append_assoc, hlit]

/-- C7 counterexample: a present `instances` value of `1.5` produces no
validation entry, although `1.5` is neither the literal `"auto"` nor an
integer `≥ 1` — the source checks `typeof instances === 'number'` and
`instances < 1` only, never integrality. -/
theorem c7_counterexample :
    validateMultiCore
        (some { instances := .num (3 / 2), startingPort := .undef,
                useNginx := .undef }) = [] ∧
    ¬ instancesClaimOK (.num (3 / 2)) := by
  constructor
  · have hge : ¬((3 / 2 : ℚ) < 1) := by norm_num
    simp [validateMultiCore, hge]
  · rintro (hauto | ⟨k, hk, hnum⟩)
    · exact JSVal.noConfusion hauto
    · have hq : (3 / 2 : ℚ) = (k : ℚ) := by
        injection hnum
      rcases lt_or_le k 2 with h2 | h2
      · have hk1 : k = 1 := by omega
        subst hk1
        norm_num at hq
      · have h2q : (2 : ℚ) ≤ (k : ℚ) := by exact_mod_cast h2
        rw [← hq] at h2q
        norm_num at h2q

/-- C7 (amended): both validators return a structured `{message, path}`
list; a configuration passes with no entries iff each present field
satisfies its rule — `instances` must be the literal `"auto"` or a *number*
`≥ 1` (integrality is not enforced), `startingPort` a number in
`[1024, 65535]`, `useNginx` a boolean; and the per-server validator applies
literally the same field rules as the global one, its entries differing
only by the `app.servers.<name>.` path prefix. -/
theorem c7_validation_rules (m : MultiCoreSettings) (serverName : String) :
    (validateMultiCore (some m) = [] ↔
       instancesFieldValid m.instances ∧ startingPortFieldValid m.startingPort ∧
         useNginxFieldValid m.useNginx) ∧
    (validateMultiCore none = []) ∧
    (validateServerMultiCore serverName m =
       (validateMultiCore (some m)).map (fun d =>
         { d with path := "app.servers." ++ serverName ++ "." ++ d.path })) ∧
    (validateAppServers [(serverName, some m)] =
       validateServerMultiCore serverName m) := by
  refine ⟨?_, rfl, ?_, by simp [validateAppServers]⟩
  · cases hi : m.instances <;> cases hp : m.startingPort <;>
      cases hn : m.useNginx <;>
      simp [validateMultiCore, instancesFieldValid, startingPortFieldValid,
        useNginxFieldValid, hi, hp, hn]
  · rw [validateServerMultiCore, validateMultiCore]
    rw [List.map_append, List.map_append]
    have hins := pathShift ("app.servers." ++ serverName) ".multiCore"
      ".instances" "multiCore.instances" (by decide)
    have hport := pathShift ("app.servers." ++ serverName) ".multiCore"
      ".startingPort" "multiCore.startingPort" (by decide)
    have hng := pathShift ("app.servers." ++ serverName) ".multiCore"
      ".useNginx" "multiCore.useNginx" (by decide)
    congr 1
    · congr 1
      · cases hi : m.instances <;> simp [hins, apply_ite]
      · cases hp : m.startingPort <;> simp [hport, apply_ite]
        split_ifs with hcond
        · intro hge
          rcases hcond with hlt | hgt
          · linarith
          · exact hgt
        · push_neg at hcond
          exact hcond
    · cases hn : m.useNginx <;> simp [hng, apply_ite]

end MupMulticore
